import Mathlib

/-!
Shallow embedding of the content-integrity and relationship-graph engine of
the worldbuilding repository (`collab/models.py`, `collab/serializers.py`,
`collab/views/world_views.py`, `collab/views/content_views.py`), together
with proofs settling the frozen claims about it.

Entities, tags and links are modelled as explicit relational state (lists of
rows); Django managers become filters on those lists; timestamps, primary
keys, users and worlds are natural numbers; exceptions become `Except` /
`Option` results.
-/

namespace Worldbuilding

/-- The five content kinds (`Page`, `Essay`, `Character`, `Story`, `Image` in
`collab/models.py`), dispatched by a closed discriminator. -/
inductive Kind where
  | page
  | essay
  | character
  | story
  | image
deriving DecidableEq, Repr

/-- A polymorphic reference `(entity-kind, entity-id)`, the generic-foreign-key
pair `(content_type, object_id)` used by `ContentTag` and `ContentLink`. -/
structure Ref where
  kind : Kind
  id : Nat
deriving DecidableEq, Repr

/-- A content-entity row: the fields of `ContentBase` shared by all five
kinds (`title`, `content`, `author`, `world`, `created_at`) plus the
soft-delete triad from `SoftDeleteMixin` (`is_deleted`, `deleted_at`,
`deleted_by`).  Kind-specific payload columns are irrelevant to every claim
and are not modelled. -/
structure Content where
  id : Nat
  kind : Kind
  title : String
  content : String
  authorId : Nat
  worldId : Nat
  createdAt : Nat
  is_deleted : Bool
  deleted_at : Option Nat
  deleted_by : Option Nat
deriving DecidableEq, Repr

/-- The `(content_type, object_id)` pair of a content row. -/
def Content.ref (c : Content) : Ref := ⟨c.kind, c.id⟩

/-! ## Immutability guard (`ImmutableModelMixin`) and soft delete
(`SoftDeleteMixin`) -/

/-- The payload of `ImmutabilityViolationError` (`collab/exceptions.py`):
the entity kind (`content_type`) and primary key (`content_id`) named by
`ImmutableModelMixin.save` / `.delete` when they raise. -/
structure ImmutabilityError where
  content_type : Kind
  content_id : Nat
deriving DecidableEq, Repr

/-- `SoftDeleteMixin.soft_delete`: sets `is_deleted`, stamps `deleted_at`
with the current time and `deleted_by` with the acting user, and persists
with `force_update=True` (which bypasses the immutability check). -/
def softDelete (e : Content) (user : Option Nat) (now : Nat) : Content :=
  { e with is_deleted := true, deleted_at := some now, deleted_by := user }

/-- `SoftDeleteMixin.restore`: clears the soft-delete triad and persists with
`force_update=True`. -/
def restore (e : Content) : Content :=
  { e with is_deleted := false, deleted_at := none, deleted_by := none }

/-- `ImmutableModelMixin.save`.  `hasPk` is the truthiness of `self.pk`;
`stored` is the database row fetched by `self.__class__.all_objects.get(pk=self.pk)`
(`none` when that raises `DoesNotExist`); `proposed` is the in-memory
instance being saved.  The code allows the save when `force_update` is set,
when the instance has no primary key yet (a create), or when any of the
three soft-delete fields differs from the stored row; otherwise it raises
`ImmutabilityViolationError` naming the entity kind and id. -/
def immutableSave (hasPk : Bool) (stored : Option Content) (proposed : Content)
    (forceUpdate : Bool) : Except ImmutabilityError Content :=
  if hasPk && !forceUpdate then
    match stored with
    | some current =>
        if proposed.is_deleted ≠ current.is_deleted ∨
            proposed.deleted_at ≠ current.deleted_at ∨
            proposed.deleted_by ≠ current.deleted_by then
          Except.ok proposed
        else
          Except.error ⟨proposed.kind, proposed.id⟩
    | none => Except.error ⟨proposed.kind, proposed.id⟩
  else
    Except.ok proposed

/-- `ImmutableModelMixin.delete` on a content entity: every content model has
`soft_delete` (via `SoftDeleteMixin`), so `delete` always performs the
soft-delete transition and never removes the row. -/
def immutableDelete (e : Content) (user : Option Nat) (now : Nat) : Content :=
  softDelete e user now

/-- The fields of a content row outside the soft-delete triad. -/
def nonTriad (e : Content) : Nat × Kind × String × String × Nat × Nat × Nat :=
  (e.id, e.kind, e.title, e.content, e.authorId, e.worldId, e.createdAt)

/-! ## Linking subsystem (`ContentLink`, `ContentBase.link_to` /
`unlink_from` / `get_linked_content` / `get_content_linking_to_this`) -/

/-- A `ContentLink` row: a directed edge between two `(kind, id)` pairs.
`created_at` plays no role in any claim and is omitted. -/
structure Edge where
  fromRef : Ref
  toRef : Ref
deriving DecidableEq, Repr

/-- The link table, a list of `ContentLink` rows.  `unique_together` on the
ordered 4-tuple means a well-formed table is duplicate-free
(`List.Nodup`). -/
abbrev LinkStore := List Edge

/-- The two link-creation rejections of the spec taxonomy: `WorldMismatch`
(the `ValidationError` raised by `link_to` when the worlds differ) and
`SelfLink` (the `ValidationError` raised by `ContentLink.clean` when both
endpoints are the same `(kind, id)`). -/
inductive LinkError where
  | worldMismatch
  | selfLink
deriving DecidableEq, Repr

/-- `ContentLink.objects.get_or_create` on one directed edge: if the row
already exists it is returned as-is with no validation; otherwise `create`
runs `full_clean`, whose `ContentLink.clean` rejects a self-loop before the
row is inserted, and then appends the new row. -/
def addEdge (store : LinkStore) (e : Edge) : Except LinkError LinkStore :=
  if e ∈ store then Except.ok store
  else if e.fromRef = e.toRef then Except.error LinkError.selfLink
  else Except.ok (store ++ [e])

/-- `ContentBase.link_to(target)`: rejects cross-world links up front, then
get-or-creates the forward edge and the reverse edge, returning the new
table and the forward edge. -/
def linkTo (store : LinkStore) (self target : Content) :
    Except LinkError (LinkStore × Edge) := do
  if target.worldId ≠ self.worldId then
    Except.error LinkError.worldMismatch
  else
    let fwd : Edge := ⟨self.ref, target.ref⟩
    let s1 ← addEdge store fwd
    let s2 ← addEdge s1 ⟨target.ref, self.ref⟩
    Except.ok (s2, fwd)

/-- `ContentBase.unlink_from(target)`: inside one `try` block, fetches and
deletes the forward edge, then fetches and deletes the reverse edge,
returning `true`; if either fetch raises `ContentLink.DoesNotExist` the
function returns `false` at that point — so when only the forward edge
exists it is deleted and the call still returns `false`. -/
def unlinkFrom (store : LinkStore) (self target : Content) : Bool × LinkStore :=
  let fwd : Edge := ⟨self.ref, target.ref⟩
  let rev : Edge := ⟨target.ref, self.ref⟩
  if fwd ∈ store then
    let s1 := store.erase fwd
    if rev ∈ s1 then (true, s1.erase rev)
    else (false, s1)
  else (false, store)

/-- Resolve a `(kind, id)` reference against the entity rows, as a generic
foreign key does; `none` models a dangling (purged) reference. -/
def findRef (db : List Content) (r : Ref) : Option Content :=
  db.find? (fun c => c.ref = r)

/-- `ContentBase.get_linked_content`: the resolved targets of all outgoing
edges, silently skipping targets that no longer resolve. -/
def getLinkedContent (db : List Content) (store : LinkStore) (self : Content) :
    List Content :=
  (store.filter (fun e => e.fromRef = self.ref)).filterMap
    (fun e => findRef db e.toRef)

/-- `ContentBase.get_content_linking_to_this`: the resolved sources of all
incoming edges, silently skipping sources that no longer resolve. -/
def getContentLinkingToThis (db : List Content) (store : LinkStore) (self : Content) :
    List Content :=
  (store.filter (fun e => e.toRef = self.ref)).filterMap
    (fun e => findRef db e.fromRef)

/-- Symmetry of the link table: a forward edge exists iff its backward edge
exists. -/
def Symm (store : LinkStore) : Prop :=
  ∀ e : Edge, e ∈ store → Edge.mk e.toRef e.fromRef ∈ store

instance : DecidablePred Symm := fun store =>
  decidable_of_iff (∀ e ∈ store, Edge.mk e.toRef e.fromRef ∈ store) Iff.rfl

/-! ## Tagging subsystem (`Tag`, `ContentTag`, `ContentBase.add_tag` /
`get_tags` / `get_content_by_tags`) -/

/-- A `Tag` row.  `(name, world)` is `unique_together`, so the pair itself
identifies the row. -/
structure Tag where
  name : String
  worldId : Nat
deriving DecidableEq, Repr

/-- A `ContentTag` association row: `(content_type, object_id)` × tag,
`unique_together` on the triple. -/
structure CTag where
  ref : Ref
  tag : Tag
deriving DecidableEq, Repr

/-- The tag tables: `Tag` rows and `ContentTag` rows. -/
structure TagStore where
  tags : List Tag
  contentTags : List CTag
deriving DecidableEq, Repr

/-- The `ValidationError` raised by `add_tag` when the name normalizes to the
empty string. -/
inductive TagError where
  | emptyName
deriving DecidableEq, Repr

/-- Python `str.lower()` on the character list (the repository's strings are
ASCII names and titles). -/
def pyLower (s : String) : String := ⟨s.data.map Char.toLower⟩

/-- Python `str.strip()`: drop leading and trailing whitespace. -/
def pyStrip (s : String) : String :=
  ⟨((s.data.dropWhile Char.isWhitespace).reverse.dropWhile
      Char.isWhitespace).reverse⟩

/-- `tag_name.strip().lower()`, the normalization applied by `add_tag`,
`remove_tag` and `get_content_by_tags`. -/
def normalizeTag (s : String) : String := pyLower (pyStrip s)

/-- `ContentBase.add_tag(tag_name)`: normalize; reject an empty result;
get-or-create the `Tag` scoped to the entity's world; get-or-create the
`ContentTag` association; return it. -/
def addTag (st : TagStore) (e : Content) (name : String) :
    Except TagError (TagStore × CTag) :=
  let n := normalizeTag name
  if n = "" then Except.error TagError.emptyName
  else
    let tag : Tag := ⟨n, e.worldId⟩
    let st1 := if tag ∈ st.tags then st else { st with tags := st.tags ++ [tag] }
    let ct : CTag := ⟨e.ref, tag⟩
    let st2 :=
      if ct ∈ st1.contentTags then st1
      else { st1 with contentTags := st1.contentTags ++ [ct] }
    Except.ok (st2, ct)

/-- `ContentBase.get_tags`: the `Tag` rows whose id occurs among the
entity's `ContentTag` associations (the name-ordering of the queryset does
not matter to any claim, so rows keep table order here). -/
def getTags (st : TagStore) (e : Content) : List Tag :=
  st.tags.filter (fun t => decide (CTag.mk e.ref t ∈ st.contentTags))

/-- The `object_id`s associated with one tag among rows of one content kind
(`ContentTag.objects.filter(tag=tag, content_type=content_type)`). -/
def tagIdsFor (st : TagStore) (kind : Kind) (t : Tag) : List Nat :=
  (st.contentTags.filter (fun ct => decide (ct.tag = t ∧ ct.ref.kind = kind))).map
    (fun ct => ct.ref.id)

/-- `ContentBase.get_content_by_tags(world, tag_names, match_all)`:
normalize and drop blank names; resolve the names that exist as in-world
`Tag` rows; in ALL mode fold an intersection of per-tag id sets over the
resolved tags (`None` start, empty/`None` result treated as no content); in
ANY mode take the union; finally filter the entity table by kind, id
membership, world, and the default manager's `is_deleted = false`. -/
def getContentByTags (db : List Content) (st : TagStore) (worldId : Nat)
    (kind : Kind) (names : List String) (matchAll : Bool) : List Content :=
  let ns := (names.map normalizeTag).filter (fun n => n ≠ "")
  if ns = [] then []
  else
    let tags := st.tags.filter (fun t => decide (t.name ∈ ns ∧ t.worldId = worldId))
    if matchAll then
      let idsOpt : Option (List Nat) := tags.foldl
        (fun acc t =>
          match acc with
          | none => some (tagIdsFor st kind t)
          | some ids => some (ids.filter (fun i => decide (i ∈ tagIdsFor st kind t))))
        none
      match idsOpt with
      | some ids =>
          if ids ≠ [] then
            db.filter (fun c => decide (c.kind = kind ∧ c.id ∈ ids ∧
              c.worldId = worldId ∧ c.is_deleted = false))
          else []
      | none => []
    else
      let ids := (st.contentTags.filter
          (fun ct => decide (ct.tag ∈ tags ∧ ct.ref.kind = kind))).map
        (fun ct => ct.ref.id)
      db.filter (fun c => decide (c.kind = kind ∧ c.id ∈ ids ∧
        c.worldId = worldId ∧ c.is_deleted = false))

/-! ## Timeline aggregator (`WorldViewSet.timeline`,
`World.get_content_timeline`) -/

/-- The fixed gather order of the `content_models` dict in the timeline
view: pages, essays, characters, stories, images. -/
def kindOrder : List Kind :=
  [Kind.page, Kind.essay, Kind.character, Kind.story, Kind.image]

/-- Stable insertion for a descending sort on `created_at`: an element
passes every strictly newer element and stops in front of the first one that
is not strictly newer, so elements with equal `created_at` keep their
original relative order — exactly the stability contract of
`list.sort(key=..., reverse=True)`. -/
def insertByCreatedDesc (x : Content) : List Content → List Content
  | [] => [x]
  | y :: ys =>
      if y.createdAt > x.createdAt then y :: insertByCreatedDesc x ys
      else x :: y :: ys

/-- `all_content.sort(key=lambda x: x.created_at, reverse=True)` as a stable
insertion sort. -/
def sortByCreatedDesc (l : List Content) : List Content :=
  l.foldr insertByCreatedDesc []

/-- `WorldViewSet.timeline` with every optional filter at its default (each
filter is then the identity on the gathered querysets): gather the world's
non-deleted rows kind by kind in `content_models` order, sort the merged
list by `created_at` descending with Python's stable sort, then slice
`[offset : offset + limit]`.  The per-kind `Meta.ordering = ['-created_at']`
is subsumed by the final stable sort and is not repeated here. -/
def timeline (db : List Content) (worldId : Nat) (offset limit : Nat) :
    List Content :=
  let allContent := kindOrder.flatMap (fun k =>
    db.filter (fun c => decide (c.kind = k ∧ c.worldId = worldId ∧
      c.is_deleted = false)))
  ((sortByCreatedDesc allContent).drop offset).take limit

/-! ## Attribution & collaboration analytics
(`ContentBaseSerializer.get_collaboration_info`,
`ContentViewSetMixin.attribution_details`) -/

/-- The dictionary returned by `get_collaboration_info`; author sets are
lists of distinct author ids. -/
structure CollaborationInfo where
  links_to_count : Nat
  linked_from_count : Nat
  tags_count : Nat
  references_other_authors : List Nat
  referenced_by_authors : List Nat
  is_collaborative : Bool
  collaboration_score : Nat
deriving DecidableEq, Repr

/-- `ContentBaseSerializer.get_collaboration_info(obj)`: counts of linked /
linking content and tags, the sets of other authors referenced and
referencing, `is_collaborative` when either set is non-empty, and
`collaboration_score = linked_count + linking_count + tags_count`. -/
def getCollaborationInfo (db : List Content) (store : LinkStore) (st : TagStore)
    (obj : Content) : CollaborationInfo :=
  let linked := getLinkedContent db store obj
  let linking := getContentLinkingToThis db store obj
  let tagsCount := (getTags st obj).length
  let referencedAuthors :=
    ((linked.filter (fun c => decide (c.authorId ≠ obj.authorId))).map
      (fun c => c.authorId)).dedup
  let referencingAuthors :=
    ((linking.filter (fun c => decide (c.authorId ≠ obj.authorId))).map
      (fun c => c.authorId)).dedup
  { links_to_count := linked.length
    linked_from_count := linking.length
    tags_count := tagsCount
    references_other_authors := referencedAuthors
    referenced_by_authors := referencingAuthors
    is_collaborative := decide (referencedAuthors ≠ [] ∨ referencingAuthors ≠ [])
    collaboration_score := linked.length + linking.length + tagsCount }

/-- The `collaboration_metrics` block of
`ContentViewSetMixin.attribution_details`. -/
structure AttributionMetrics where
  total_references_made : Nat
  total_references_received : Nat
  cross_author_references_made : Nat
  cross_author_references_received : Nat
  collaboration_score : Nat
  is_collaborative : Bool
deriving DecidableEq, Repr

/-- `attribution_details(content)`: references made are the resolved link
targets, references received the resolved link sources; the cross-author
counts keep only entries whose author differs from the content's author;
this endpoint's `collaboration_score` is the sum of the two cross-author
counts (no tag term), and `is_collaborative` their disjunction. -/
def attributionMetrics (db : List Content) (store : LinkStore)
    (content : Content) : AttributionMetrics :=
  let made := getLinkedContent db store content
  let received := getContentLinkingToThis db store content
  let crossMade :=
    (made.filter (fun c => decide (c.authorId ≠ content.authorId))).length
  let crossReceived :=
    (received.filter (fun c => decide (c.authorId ≠ content.authorId))).length
  { total_references_made := made.length
    total_references_received := received.length
    cross_author_references_made := crossMade
    cross_author_references_received := crossReceived
    collaboration_score := crossMade + crossReceived
    is_collaborative := decide (crossMade > 0 ∨ crossReceived > 0) }

/-! ## Content validation (`ContentBase.clean`) and creation -/

/-- The `ContentValidationError` codes raised by `ContentBase.clean`, in the
order the checks run. -/
inductive CleanError where
  | titleRequired
  | titleMinLength
  | titleMaxLength
  | contentRequired
  | contentMinLength
  | duplicateTitle
deriving DecidableEq, Repr

/-- The duplicate-title check of `ContentBase.clean`:
`self.__class__.objects.filter(world=self.world, title__iexact=self.title.strip()).exclude(pk=self.pk).exists()`.
`objects` is the `SoftDeleteManager`, so only rows with
`is_deleted = false` are compared; `__iexact` compares case-insensitively
against the stripped proposed title; same kind because each kind lives in
its own table. -/
def titleConflicts (db : List Content) (e : Content) : Bool :=
  db.any (fun c => decide (c.kind = e.kind ∧ c.is_deleted = false ∧
    c.worldId = e.worldId ∧ pyLower c.title = pyLower (pyStrip e.title) ∧
    c.id ≠ e.id))

/-- `ContentBase.clean`: title presence and 3–300 bounds, body presence and
≥ 10 bound, then the per-world duplicate-title check.  The world/author
presence checks always pass here because both fields are total in the
embedding. -/
def contentClean (db : List Content) (e : Content) : Option CleanError :=
  if pyStrip e.title = "" then some CleanError.titleRequired
  else if (pyStrip e.title).length < 3 then some CleanError.titleMinLength
  else if (pyStrip e.title).length > 300 then some CleanError.titleMaxLength
  else if pyStrip e.content = "" then some CleanError.contentRequired
  else if (pyStrip e.content).length < 10 then some CleanError.contentMinLength
  else if titleConflicts db e then some CleanError.duplicateTitle
  else none

/-- `ContentBase.save` on a fresh instance: `full_clean` then insert. -/
def createContent (db : List Content) (e : Content) :
    Except CleanError (List Content) :=
  match contentClean db e with
  | some err => Except.error err
  | none => Except.ok (db ++ [e])

/-- Sample rows used by concrete witnesses and counterexamples: a page by
author 1 in world 1. -/
def pageA : Content :=
  ⟨1, Kind.page, "Page A", "body text A!", 1, 1, 10, false, none, none⟩

/-- A story by author 2 in world 1. -/
def storyB : Content :=
  ⟨2, Kind.story, "Story B", "body text B!", 2, 1, 20, false, none, none⟩

/-- A character by author 2 in world 1, created between `pageA` and
`storyB`. -/
def charC : Content :=
  ⟨3, Kind.character, "Char C", "body text C!", 2, 1, 15, false, none, none⟩

/-- A second page by author 1 in world 1 (used to exhibit same-author
links). -/
def pageQ : Content :=
  ⟨4, Kind.page, "Page Q", "body text Q!", 1, 1, 12, false, none, none⟩

/-! ## Helper lemmas on the linking subsystem -/

/-- A successful `get_or_create` on an edge either found the row or appended
it. -/
theorem addEdge_ok_iff {store : LinkStore} {e : Edge} {s' : LinkStore}
    (h : addEdge store e = Except.ok s') :
    (s' = store ∧ e ∈ store) ∨
    (s' = store ++ [e] ∧ e ∉ store ∧ e.fromRef ≠ e.toRef) := by
  by_cases h1 : e ∈ store
  · simp [addEdge, h1] at h
    exact Or.inl ⟨h.symm, h1⟩
  · by_cases h2 : e.fromRef = e.toRef
    · simp [addEdge, h1, h2] at h
    · simp [addEdge, h1, h2] at h
      exact Or.inr ⟨h.symm, h1, h2⟩

/-- Membership in the table after a successful edge `get_or_create`. -/
theorem addEdge_mem {store : LinkStore} {e : Edge} {s' : LinkStore}
    (h : addEdge store e = Except.ok s') (x : Edge) :
    x ∈ s' ↔ x ∈ store ∨ x = e := by
  rcases addEdge_ok_iff h with ⟨rfl, he⟩ | ⟨rfl, he, hne⟩
  · exact ⟨Or.inl, fun hx => hx.elim id (fun hh => hh ▸ he)⟩
  · simp [List.mem_append]

/-- A successful edge `get_or_create` preserves the `unique_together`
duplicate-freeness of the table. -/
theorem addEdge_nodup {store : LinkStore} {e : Edge} {s' : LinkStore}
    (h : addEdge store e = Except.ok s') (hnd : store.Nodup) : s'.Nodup := by
  rcases addEdge_ok_iff h with ⟨rfl, _⟩ | ⟨rfl, he, _⟩
  · exact hnd
  · simp [List.nodup_append, hnd, he]

/-- Decomposition of a successful `link_to`: the worlds agree, the returned
edge is the forward edge, and the table results from the two successive
`get_or_create` calls. -/
theorem linkTo_ok {store : LinkStore} {s t : Content} {store' : LinkStore}
    {fwd : Edge} (h : linkTo store s t = Except.ok (store', fwd)) :
    t.worldId = s.worldId ∧ fwd = Edge.mk s.ref t.ref ∧
    ∃ s1, addEdge store (Edge.mk s.ref t.ref) = Except.ok s1 ∧
      addEdge s1 (Edge.mk t.ref s.ref) = Except.ok store' := by
  by_cases hw : t.worldId ≠ s.worldId
  · simp [linkTo, hw] at h
  · rw [not_not] at hw
    refine ⟨hw, ?_⟩
    cases h1 : addEdge store (Edge.mk s.ref t.ref) with
    | error err => simp [linkTo, hw, h1, Bind.bind, Except.bind] at h
    | ok s1 =>
        cases h2 : addEdge s1 (Edge.mk t.ref s.ref) with
        | error err => simp [linkTo, hw, h1, h2, Bind.bind, Except.bind] at h
        | ok s2 =>
            have has : linkTo store s t =
                Except.ok (s2, Edge.mk s.ref t.ref) := by
              simp [linkTo, hw, h1, h2, Bind.bind, Except.bind]
            rw [h] at has
            rw [Except.ok.injEq, Prod.mk.injEq] at has
            refine ⟨has.2, s1, rfl, ?_⟩
            rw [has.1]
            exact h2

/-- Membership in `get_linked_content`: a resolved target of some outgoing
edge. -/
theorem mem_getLinkedContent {db : List Content} {store : LinkStore}
    {self c : Content} :
    c ∈ getLinkedContent db store self ↔
      ∃ e ∈ store, e.fromRef = self.ref ∧ findRef db e.toRef = some c := by
  simp only [getLinkedContent, List.mem_filterMap, List.mem_filter,
    decide_eq_true_eq]
  constructor
  · rintro ⟨e, ⟨he, hf⟩, hr⟩
    exact ⟨e, he, hf, hr⟩
  · rintro ⟨e, he, hf, hr⟩
    exact ⟨e, ⟨he, hf⟩, hr⟩

/-- Membership in `get_content_linking_to_this`: a resolved source of some
incoming edge. -/
theorem mem_getContentLinkingToThis {db : List Content} {store : LinkStore}
    {self c : Content} :
    c ∈ getContentLinkingToThis db store self ↔
      ∃ e ∈ store, e.toRef = self.ref ∧ findRef db e.fromRef = some c := by
  simp only [getContentLinkingToThis, List.mem_filterMap, List.mem_filter,
    decide_eq_true_eq]
  constructor
  · rintro ⟨e, ⟨he, hf⟩, hr⟩
    exact ⟨e, he, hf, hr⟩
  · rintro ⟨e, he, hf, hr⟩
    exact ⟨e, ⟨he, hf⟩, hr⟩

/-- `unlink_from` preserves link-table symmetry from any duplicate-free
symmetric state. -/
theorem unlinkFrom_symm (s2 : LinkStore) (p q : Content) (hnd : s2.Nodup)
    (hs : Symm s2) : Symm (unlinkFrom s2 p q).2 := by
  by_cases hf : Edge.mk p.ref q.ref ∈ s2
  · by_cases hr : Edge.mk q.ref p.ref ∈ s2.erase (Edge.mk p.ref q.ref)
    · have hres : (unlinkFrom s2 p q).2 =
          (s2.erase (Edge.mk p.ref q.ref)).erase (Edge.mk q.ref p.ref) := by
        simp [unlinkFrom, hf, hr]
      rw [hres]
      intro x hx
      have hnd' := hnd.erase (Edge.mk p.ref q.ref)
      rw [List.Nodup.mem_erase_iff hnd'] at hx
      obtain ⟨hxr, hx⟩ := hx
      rw [List.Nodup.mem_erase_iff hnd] at hx
      obtain ⟨hxf, hx⟩ := hx
      have hm := hs x hx
      rw [List.Nodup.mem_erase_iff hnd', List.Nodup.mem_erase_iff hnd]
      refine ⟨?_, ?_, hm⟩
      · intro hc
        apply hxf
        cases x
        simp only [Edge.mk.injEq] at hc ⊢
        exact ⟨hc.2, hc.1⟩
      · intro hc
        apply hxr
        cases x
        simp only [Edge.mk.injEq] at hc ⊢
        exact ⟨hc.2, hc.1⟩
    · -- the reverse row is absent from the erased table; under symmetry the
      -- forward edge must then be its own mirror (a self-loop)
      have hres : (unlinkFrom s2 p q).2 = s2.erase (Edge.mk p.ref q.ref) := by
        simp [unlinkFrom, hf, hr]
      rw [hres]
      have hrs : Edge.mk q.ref p.ref ∈ s2 := hs _ hf
      have heq : Edge.mk q.ref p.ref = Edge.mk p.ref q.ref := by
        by_contra hc
        exact hr (List.Nodup.mem_erase_iff hnd |>.mpr ⟨hc, hrs⟩)
      have hpq : q.ref = p.ref := congrArg Edge.fromRef heq
      intro x hx
      rw [List.Nodup.mem_erase_iff hnd] at hx
      obtain ⟨hxf, hx⟩ := hx
      have hm := hs x hx
      rw [List.Nodup.mem_erase_iff hnd]
      refine ⟨?_, hm⟩
      intro hc
      apply hxf
      cases x
      simp only [Edge.mk.injEq] at hc ⊢
      exact ⟨hc.2.trans hpq, hc.1.trans hpq.symm⟩
  · have hres : (unlinkFrom s2 p q).2 = s2 := by
      simp [unlinkFrom, hf]
    rw [hres]
    exact hs

/-! ## Claims -/

/-- C2: link symmetry.  A successful `link_to` leaves both directed rows in
the table, so each endpoint appears among the other's resolved link targets;
`link_to` preserves the symmetry invariant (and the table's
duplicate-freeness), re-linking an already-linked pair returns the existing
forward edge with the table unchanged, and `unlink_from` preserves symmetry
from any duplicate-free symmetric state. -/
theorem c2_link_symmetry (db : List Content) (store : LinkStore)
    (e1 e2 : Content) (store' : LinkStore) (fwd : Edge)
    (hok : linkTo store e1 e2 = Except.ok (store', fwd)) :
    (Edge.mk e1.ref e2.ref ∈ store' ∧ Edge.mk e2.ref e1.ref ∈ store') ∧
    (findRef db e2.ref = some e2 → e2 ∈ getLinkedContent db store' e1) ∧
    (findRef db e1.ref = some e1 → e1 ∈ getLinkedContent db store' e2) ∧
    (Symm store → Symm store') ∧
    (store.Nodup → store'.Nodup) ∧
    (Edge.mk e1.ref e2.ref ∈ store → Edge.mk e2.ref e1.ref ∈ store →
      store' = store ∧ fwd = Edge.mk e1.ref e2.ref) ∧
    (∀ s2 : LinkStore, s2.Nodup → Symm s2 → Symm (unlinkFrom s2 e1 e2).2) := by
  obtain ⟨hw, hfwd, s1, h1, h2⟩ := linkTo_ok hok
  have hmem1 := addEdge_mem h1
  have hmem2 := addEdge_mem h2
  have hfmem : Edge.mk e1.ref e2.ref ∈ store' :=
    (hmem2 _).mpr (Or.inl ((hmem1 _).mpr (Or.inr rfl)))
  have hrmem : Edge.mk e2.ref e1.ref ∈ store' := (hmem2 _).mpr (Or.inr rfl)
  refine ⟨⟨hfmem, hrmem⟩, ?_, ?_, ?_, ?_, ?_, ?_⟩
  · intro hres
    exact mem_getLinkedContent.mpr ⟨Edge.mk e1.ref e2.ref, hfmem, rfl, hres⟩
  · intro hres
    exact mem_getLinkedContent.mpr ⟨Edge.mk e2.ref e1.ref, hrmem, rfl, hres⟩
  · intro hs x hx
    rcases (hmem2 x).mp hx with hx1 | rfl
    · rcases (hmem1 x).mp hx1 with hx0 | rfl
      · exact (hmem2 _).mpr (Or.inl ((hmem1 _).mpr (Or.inl (hs x hx0))))
      · exact hrmem
    · exact hfmem
  · intro hnd
    exact addEdge_nodup h2 (addEdge_nodup h1 hnd)
  · intro hf hr
    have e1eq : addEdge store (Edge.mk e1.ref e2.ref) = Except.ok store := by
      simp [addEdge, hf]
    rw [e1eq] at h1
    have hs1 : store = s1 := by
      rw [Except.ok.injEq] at h1
      exact h1
    have e2eq : addEdge s1 (Edge.mk e2.ref e1.ref) = Except.ok s1 := by
      simp [addEdge, hs1 ▸ hr]
    rw [e2eq] at h2
    have hs2 : s1 = store' := by
      rw [Except.ok.injEq] at h2
      exact h2
    exact ⟨(hs1.trans hs2).symm, hfwd⟩
  · exact fun s2 hnd hs => unlinkFrom_symm s2 e1 e2 hnd hs

/-- Witness for C2: linking a page to a story in the same world on an empty
table makes each a resolved link target of the other, and the resulting
table is symmetric. -/
theorem c2_link_symmetry_witness :
    storyB ∈ getLinkedContent [pageA, storyB]
      [Edge.mk pageA.ref storyB.ref, Edge.mk storyB.ref pageA.ref] pageA ∧
    pageA ∈ getLinkedContent [pageA, storyB]
      [Edge.mk pageA.ref storyB.ref, Edge.mk storyB.ref pageA.ref] storyB ∧
    Symm [Edge.mk pageA.ref storyB.ref, Edge.mk storyB.ref pageA.ref] := by
  have h := c2_link_symmetry [pageA, storyB] [] pageA storyB
    [Edge.mk pageA.ref storyB.ref, Edge.mk storyB.ref pageA.ref]
    (Edge.mk pageA.ref storyB.ref) rfl
  exact ⟨h.2.1 rfl, h.2.2.1 rfl, h.2.2.2.1 (by decide)⟩

/-- C3 counterexample: on a table holding only the forward edge,
`unlink_from` deletes that edge (the table shrinks to empty) yet returns
`false`, so the return value is *not* "true exactly when at least one edge
was removed". -/
theorem c3_unlink_counterexample :
    (unlinkFrom [Edge.mk pageA.ref storyB.ref] pageA storyB).2 = [] ∧
    (unlinkFrom [Edge.mk pageA.ref storyB.ref] pageA storyB).1 = false ∧
    ¬ ((unlinkFrom [Edge.mk pageA.ref storyB.ref] pageA storyB).1 = true ↔
        (unlinkFrom [Edge.mk pageA.ref storyB.ref] pageA storyB).2 ≠
          [Edge.mk pageA.ref storyB.ref]) := by
  decide

/-- C3 amended: on a duplicate-free table, `unlink_from` returns `true`
exactly when *both* directed edges are present (and then removes both); when
the forward edge is absent it removes nothing and returns `false`, even if
the reverse edge is present; when only the forward edge is present it
removes that edge — the table shrinks by one row — and still returns
`false`. -/
theorem c3_unlink_amended (store : LinkStore) (p q : Content)
    (hne : p.ref ≠ q.ref) (hnd : store.Nodup) :
    ((unlinkFrom store p q).1 = true ↔
      Edge.mk p.ref q.ref ∈ store ∧ Edge.mk q.ref p.ref ∈ store) ∧
    (Edge.mk p.ref q.ref ∈ store → Edge.mk q.ref p.ref ∈ store →
      unlinkFrom store p q =
        (true, (store.erase (Edge.mk p.ref q.ref)).erase (Edge.mk q.ref p.ref))) ∧
    (Edge.mk p.ref q.ref ∉ store → unlinkFrom store p q = (false, store)) ∧
    (Edge.mk p.ref q.ref ∈ store → Edge.mk q.ref p.ref ∉ store →
      unlinkFrom store p q = (false, store.erase (Edge.mk p.ref q.ref)) ∧
      (unlinkFrom store p q).2.length + 1 = store.length) := by
  have hrf : Edge.mk q.ref p.ref ≠ Edge.mk p.ref q.ref := by
    intro hc
    exact hne (congrArg Edge.fromRef hc).symm
  by_cases hf : Edge.mk p.ref q.ref ∈ store
  · by_cases hr : Edge.mk q.ref p.ref ∈ store.erase (Edge.mk p.ref q.ref)
    · have hrs : Edge.mk q.ref p.ref ∈ store :=
        ((List.Nodup.mem_erase_iff hnd).mp hr).2
      refine ⟨?_, ?_, ?_, ?_⟩
      · simp [unlinkFrom, hf, hr, hrs]
      · intro _ _
        simp [unlinkFrom, hf, hr]
      · intro hc
        exact absurd hf hc
      · intro _ hc
        exact absurd hrs hc
    · have hrs : Edge.mk q.ref p.ref ∉ store := by
        intro hc
        exact hr ((List.Nodup.mem_erase_iff hnd).mpr ⟨hrf, hc⟩)
      refine ⟨?_, ?_, ?_, ?_⟩
      · simp [unlinkFrom, hf, hr, hrs]
      · intro _ hc
        exact absurd hc hrs
      · intro hc
        exact absurd hf hc
      · intro _ _
        constructor
        · simp [unlinkFrom, hf, hr]
        · have : (unlinkFrom store p q).2 = store.erase (Edge.mk p.ref q.ref) := by
            simp [unlinkFrom, hf, hr]
          rw [this, List.length_erase_of_mem hf]
          have := List.length_pos.mpr (List.ne_nil_of_mem hf)
          omega
  · refine ⟨?_, ?_, ?_, ?_⟩
    · simp [unlinkFrom, hf]
    · intro hc
      exact absurd hc hf
    · intro _
      simp [unlinkFrom, hf]
    · intro hc
      exact absurd hc hf

/-- Witness for C3 amended: a fully linked pair is unlinked with result
`true` and both rows removed. -/
theorem c3_unlink_amended_witness :
    pageA.ref ≠ storyB.ref ∧
    unlinkFrom [Edge.mk pageA.ref storyB.ref, Edge.mk storyB.ref pageA.ref]
        pageA storyB = (true, []) := by
  have h := c3_unlink_amended
    [Edge.mk pageA.ref storyB.ref, Edge.mk storyB.ref pageA.ref]
    pageA storyB (by decide) (by decide)
  refine ⟨by decide, ?_⟩
  have := h.2.1 (by decide) (by decide)
  rw [this]
  decide

/-- Membership in the in-world tag rows resolved from a name list. -/
theorem mem_resolvedTags {st : TagStore} {ns : List String} {worldId : Nat}
    {t : Tag} :
    t ∈ st.tags.filter (fun t => decide (t.name ∈ ns ∧ t.worldId = worldId)) ↔
      t ∈ st.tags ∧ t.name ∈ ns ∧ t.worldId = worldId := by
  simp [List.mem_filter]

/-- A universally quantified property of the resolved tag rows, restated
over the requested names that resolve. -/
theorem resolvedTags_forall {st : TagStore} {ns : List String} {worldId : Nat}
    (Q : Tag → Prop) :
    (∀ t ∈ st.tags.filter (fun t => decide (t.name ∈ ns ∧ t.worldId = worldId)),
        Q t) ↔
      ∀ n ∈ ns, Tag.mk n worldId ∈ st.tags → Q (Tag.mk n worldId) := by
  constructor
  · intro h n hn htag
    exact h _ (mem_resolvedTags.mpr ⟨htag, hn, rfl⟩)
  · intro h t ht
    obtain ⟨hmem, hn, hw⟩ := mem_resolvedTags.mp ht
    have heta : t = Tag.mk t.name worldId := by
      rw [← hw]
    rw [heta]
    exact h t.name hn (heta ▸ hmem)

/-- An existentially quantified property of the resolved tag rows, restated
over the requested names that resolve. -/
theorem resolvedTags_exists {st : TagStore} {ns : List String} {worldId : Nat}
    (Q : Tag → Prop) :
    (∃ t ∈ st.tags.filter (fun t => decide (t.name ∈ ns ∧ t.worldId = worldId)),
        Q t) ↔
      ∃ n ∈ ns, Tag.mk n worldId ∈ st.tags ∧ Q (Tag.mk n worldId) := by
  constructor
  · rintro ⟨t, ht, hq⟩
    obtain ⟨hmem, hn, hw⟩ := mem_resolvedTags.mp ht
    have heta : t = Tag.mk t.name worldId := by
      rw [← hw]
    exact ⟨t.name, hn, heta ▸ hmem, heta ▸ hq⟩
  · rintro ⟨n, hn, htag, hq⟩
    exact ⟨Tag.mk n worldId, mem_resolvedTags.mpr ⟨htag, hn, rfl⟩, hq⟩

/-- An id is in a tag's per-kind association-id list exactly when the
association row exists. -/
theorem mem_tagIdsFor {st : TagStore} {kind : Kind} {t : Tag} {i : Nat} :
    i ∈ tagIdsFor st kind t ↔
      CTag.mk (Ref.mk kind i) t ∈ st.contentTags := by
  simp only [tagIdsFor, List.mem_map, List.mem_filter, decide_eq_true_eq]
  constructor
  · rintro ⟨ct, ⟨hm, ht, hk⟩, hi⟩
    have heta : ct = CTag.mk (Ref.mk kind i) t := by
      cases ct with
      | mk r tg => cases r; simp_all
    rw [heta] at hm
    exact hm
  · intro hm
    exact ⟨CTag.mk (Ref.mk kind i) t, ⟨hm, rfl, rfl⟩, rfl⟩

/-- Characterization of the ALL-mode intersection fold of
`get_content_by_tags`, started from a non-`None` accumulator. -/
theorem foldl_inter_some (st : TagStore) (kind : Kind) (ts : List Tag)
    (ids0 : List Nat) :
    ∃ ids, ts.foldl (fun acc t =>
        match acc with
        | none => some (tagIdsFor st kind t)
        | some ids => some (ids.filter (fun i => decide (i ∈ tagIdsFor st kind t))))
        (some ids0) = some ids ∧
      ∀ i, (i ∈ ids ↔ i ∈ ids0 ∧ ∀ t ∈ ts, i ∈ tagIdsFor st kind t) := by
  induction ts generalizing ids0 with
  | nil => exact ⟨ids0, rfl, by simp⟩
  | cons t rest ih =>
      obtain ⟨ids, heq, hiff⟩ :=
        ih (ids0.filter (fun i => decide (i ∈ tagIdsFor st kind t)))
      refine ⟨ids, by simpa using heq, ?_⟩
      intro i
      rw [hiff i]
      simp only [List.mem_filter, decide_eq_true_eq, List.forall_mem_cons]
      tauto

/-- The ALL-mode intersection fold over a non-empty resolved tag list,
started from the `None` accumulator. -/
theorem foldl_inter_none (st : TagStore) (kind : Kind) (t0 : Tag)
    (rest : List Tag) :
    ∃ ids, (t0 :: rest).foldl (fun acc t =>
        match acc with
        | none => some (tagIdsFor st kind t)
        | some ids => some (ids.filter (fun i => decide (i ∈ tagIdsFor st kind t))))
        none = some ids ∧
      ∀ i, (i ∈ ids ↔ ∀ t ∈ t0 :: rest, i ∈ tagIdsFor st kind t) := by
  obtain ⟨ids, heq, hiff⟩ := foldl_inter_some st kind rest (tagIdsFor st kind t0)
  refine ⟨ids, ?_, ?_⟩
  · rw [List.foldl_cons]
    exact heq
  · intro i
    rw [hiff i, List.forall_mem_cons]

/-- Membership in the final entity filter of `get_content_by_tags`. -/
theorem mem_dbFilter {db : List Content} {c : Content} {kind : Kind}
    {ids : List Nat} {worldId : Nat} :
    c ∈ db.filter (fun c => decide (c.kind = kind ∧ c.id ∈ ids ∧
        c.worldId = worldId ∧ c.is_deleted = false)) ↔
      c ∈ db ∧ c.kind = kind ∧ c.id ∈ ids ∧ c.worldId = worldId ∧
        c.is_deleted = false := by
  simp [List.mem_filter]

/-- Membership in the ANY-mode association-id list of
`get_content_by_tags`. -/
theorem mem_anyIds {st : TagStore} {kind : Kind} {R : List Tag} {i : Nat} :
    i ∈ (st.contentTags.filter
        (fun ct => decide (ct.tag ∈ R ∧ ct.ref.kind = kind))).map
        (fun ct => ct.ref.id) ↔
      ∃ t ∈ R, CTag.mk (Ref.mk kind i) t ∈ st.contentTags := by
  simp only [List.mem_map, List.mem_filter, decide_eq_true_eq]
  constructor
  · rintro ⟨ct, ⟨hm, ht, hk⟩, hi⟩
    refine ⟨ct.tag, ht, ?_⟩
    have heta : ct = CTag.mk (Ref.mk kind i) ct.tag := by
      cases ct with
      | mk r tg => cases r; simp_all
    rw [← heta]
    exact hm
  · rintro ⟨t, ht, hm⟩
    exact ⟨CTag.mk (Ref.mk kind i) t, ⟨hm, ht, rfl⟩, rfl⟩

/-- C6 counterexample: in ALL mode a requested name with no matching
in-world tag is ignored rather than forcing an empty result.  World 1 has
only the tag `"a"` (on page 1); requesting `["a", "b"]` with ALL still
returns the page even though `"b"` matches no tag. -/
theorem c6_all_mode_counterexample :
    (¬ ∃ t ∈ (TagStore.mk [Tag.mk "a" 1]
        [CTag.mk (Ref.mk Kind.page 1) (Tag.mk "a" 1)]).tags,
        t.name = normalizeTag "b") ∧
    getContentByTags [pageA]
        (TagStore.mk [Tag.mk "a" 1] [CTag.mk (Ref.mk Kind.page 1) (Tag.mk "a" 1)])
        1 Kind.page ["a", "b"] true = [pageA] ∧
    [pageA] ≠ ([] : List Content) := by
  decide

/-- C6 amended: a blank-trimmed name list yields an empty result for either
mode; ALL mode returns the non-deleted in-world entities of the kind lying
in the intersection of the per-tag association sets of the requested names
*that resolve to an in-world tag* (names with no matching tag are ignored,
and if no name resolves the result is empty); ANY mode returns the union of
the per-tag association sets of the resolving names. -/
theorem c6_content_by_tags_amended (db : List Content) (st : TagStore)
    (worldId : Nat) (kind : Kind) (names : List String) (c : Content) :
    ((names.map normalizeTag).filter (fun n => n ≠ "") = [] →
      ∀ mAll, getContentByTags db st worldId kind names mAll = []) ∧
    (c ∈ getContentByTags db st worldId kind names true ↔
      c ∈ db ∧ c.kind = kind ∧ c.worldId = worldId ∧ c.is_deleted = false ∧
      (∃ n ∈ (names.map normalizeTag).filter (fun n => n ≠ ""),
        Tag.mk n worldId ∈ st.tags) ∧
      (∀ n ∈ (names.map normalizeTag).filter (fun n => n ≠ ""),
        Tag.mk n worldId ∈ st.tags →
          CTag.mk (Ref.mk kind c.id) (Tag.mk n worldId) ∈ st.contentTags)) ∧
    (c ∈ getContentByTags db st worldId kind names false ↔
      c ∈ db ∧ c.kind = kind ∧ c.worldId = worldId ∧ c.is_deleted = false ∧
      (∃ n ∈ (names.map normalizeTag).filter (fun n => n ≠ ""),
        Tag.mk n worldId ∈ st.tags ∧
          CTag.mk (Ref.mk kind c.id) (Tag.mk n worldId) ∈ st.contentTags)) := by
  by_cases hempty : (names.map normalizeTag).filter (fun n => n ≠ "") = []
  · have hz : ∀ mAll, getContentByTags db st worldId kind names mAll = [] := by
      intro mAll
      simp only [getContentByTags]
      rw [if_pos hempty]
    refine ⟨fun _ => hz, ?_, ?_⟩
    · rw [hz true, hempty]
      simp
    · rw [hz false, hempty]
      simp
  · refine ⟨fun h => absurd h hempty, ?_, ?_⟩
    · -- ALL mode
      cases hR : st.tags.filter (fun t =>
          decide (t.name ∈ (names.map normalizeTag).filter (fun n => n ≠ "") ∧
            t.worldId = worldId)) with
      | nil =>
          have hLHS : getContentByTags db st worldId kind names true = [] := by
            simp only [getContentByTags]
            rw [if_neg hempty, hR]
            rfl
          rw [hLHS]
          constructor
          · intro hc
            exact absurd hc (List.not_mem_nil c)
          · rintro ⟨_, _, _, _, ⟨n, hn, htag⟩, _⟩
            have hmem : Tag.mk n worldId ∈ st.tags.filter (fun t =>
                decide (t.name ∈ (names.map normalizeTag).filter (fun n => n ≠ "") ∧
                  t.worldId = worldId)) :=
              mem_resolvedTags.mpr ⟨htag, hn, rfl⟩
            rw [hR] at hmem
            exact absurd hmem (List.not_mem_nil _)
      | cons t0 rest =>
          obtain ⟨ids, hfold, hiff⟩ := foldl_inter_none st kind t0 rest
          have hLHS : getContentByTags db st worldId kind names true =
              if ids ≠ [] then
                db.filter (fun c => decide (c.kind = kind ∧ c.id ∈ ids ∧
                  c.worldId = worldId ∧ c.is_deleted = false))
              else [] := by
            simp only [getContentByTags]
            rw [if_neg hempty, hR, hfold]
            rfl
          -- the forall side of the amended claim is exactly membership in the
          -- folded intersection
          have hforall_of :
              (∀ n ∈ (names.map normalizeTag).filter (fun n => n ≠ ""),
                Tag.mk n worldId ∈ st.tags →
                  CTag.mk (Ref.mk kind c.id) (Tag.mk n worldId) ∈ st.contentTags) →
              ∀ t ∈ t0 :: rest, c.id ∈ tagIdsFor st kind t := by
            intro hall
            have hforall : ∀ t ∈ st.tags.filter (fun t =>
                decide (t.name ∈ (names.map normalizeTag).filter (fun n => n ≠ "") ∧
                  t.worldId = worldId)), c.id ∈ tagIdsFor st kind t := by
              rw [resolvedTags_forall (fun t => c.id ∈ tagIdsFor st kind t)]
              intro n hn htag
              exact mem_tagIdsFor.mpr (hall n hn htag)
            rw [← hR]
            exact hforall
          have hof_forall :
              (∀ t ∈ t0 :: rest, c.id ∈ tagIdsFor st kind t) →
              ∀ n ∈ (names.map normalizeTag).filter (fun n => n ≠ ""),
                Tag.mk n worldId ∈ st.tags →
                  CTag.mk (Ref.mk kind c.id) (Tag.mk n worldId) ∈ st.contentTags := by
            intro hall n hn htag
            have hmem : Tag.mk n worldId ∈ st.tags.filter (fun t =>
                decide (t.name ∈ (names.map normalizeTag).filter (fun n => n ≠ "") ∧
                  t.worldId = worldId)) :=
              mem_resolvedTags.mpr ⟨htag, hn, rfl⟩
            rw [hR] at hmem
            exact mem_tagIdsFor.mp (hall _ hmem)
          have hex : ∃ n ∈ (names.map normalizeTag).filter (fun n => n ≠ ""),
              Tag.mk n worldId ∈ st.tags := by
            have ht0 : t0 ∈ st.tags.filter (fun t =>
                decide (t.name ∈ (names.map normalizeTag).filter (fun n => n ≠ "") ∧
                  t.worldId = worldId)) := by
              rw [hR]
              exact List.mem_cons_self t0 rest
            obtain ⟨hmem0, hn0, hw0⟩ := mem_resolvedTags.mp ht0
            refine ⟨t0.name, hn0, ?_⟩
            have heta : t0 = Tag.mk t0.name worldId := by rw [← hw0]
            exact heta ▸ hmem0
          rw [hLHS]
          by_cases hids : ids = []
          · rw [if_neg (by simp [hids])]
            constructor
            · intro hc
              exact absurd hc (List.not_mem_nil c)
            · rintro ⟨hdb, hk, hw, hdel, _, hall⟩
              have : c.id ∈ ids := (hiff c.id).mpr (hforall_of hall)
              rw [hids] at this
              exact absurd this (List.not_mem_nil _)
          · rw [if_pos hids]
            rw [mem_dbFilter]
            constructor
            · rintro ⟨hdb, hk, hid, hw, hdel⟩
              exact ⟨hdb, hk, hw, hdel, hex, hof_forall ((hiff c.id).mp hid)⟩
            · rintro ⟨hdb, hk, hw, hdel, _, hall⟩
              exact ⟨hdb, hk, (hiff c.id).mpr (hforall_of hall), hw, hdel⟩
    · -- ANY mode
      have hLHS : getContentByTags db st worldId kind names false =
          db.filter (fun c => decide (c.kind = kind ∧ c.id ∈
            ((st.contentTags.filter (fun ct => decide (ct.tag ∈
              st.tags.filter (fun t =>
                decide (t.name ∈ (names.map normalizeTag).filter (fun n => n ≠ "") ∧
                  t.worldId = worldId)) ∧ ct.ref.kind = kind))).map
              (fun ct => ct.ref.id)) ∧
            c.worldId = worldId ∧ c.is_deleted = false)) := by
        simp only [getContentByTags]
        rw [if_neg hempty]
        rfl
      rw [hLHS, mem_dbFilter, mem_anyIds]
      rw [resolvedTags_exists
        (fun t => CTag.mk (Ref.mk kind c.id) t ∈ st.contentTags)]
      constructor
      · rintro ⟨hdb, hk, hid, hw, hdel⟩
        exact ⟨hdb, hk, hw, hdel, hid⟩
      · rintro ⟨hdb, hk, hw, hdel, hid⟩
        exact ⟨hdb, hk, hid, hw, hdel⟩

/-- Witness for C6 amended: a name list that is blank after trimming yields
an empty result, not an error. -/
theorem c6_content_by_tags_amended_witness :
    getContentByTags [pageA] ⟨[], []⟩ 1 Kind.page ["  ", ""] true = [] :=
  (c6_content_by_tags_amended [pageA] ⟨[], []⟩ 1 Kind.page ["  ", ""]
    pageA).1 (by decide) true

/-- Membership through the stable insertion step of the timeline sort. -/
theorem mem_insertByCreatedDesc {x z : Content} {l : List Content} :
    z ∈ insertByCreatedDesc x l ↔ z = x ∨ z ∈ l := by
  induction l with
  | nil => simp [insertByCreatedDesc]
  | cons y ys ih =>
      by_cases h : y.createdAt > x.createdAt
      · simp only [insertByCreatedDesc, h, if_true, List.mem_cons, ih]
        tauto
      · simp only [insertByCreatedDesc, h, if_false, List.mem_cons]

/-- The insertion step preserves descending order on `created_at`. -/
theorem pairwise_insertByCreatedDesc (x : Content) (l : List Content)
    (h : l.Pairwise (fun a b => b.createdAt ≤ a.createdAt)) :
    (insertByCreatedDesc x l).Pairwise
      (fun a b => b.createdAt ≤ a.createdAt) := by
  induction l with
  | nil => simp [insertByCreatedDesc]
  | cons y ys ih =>
      rw [List.pairwise_cons] at h
      by_cases hc : y.createdAt > x.createdAt
      · simp only [insertByCreatedDesc, hc, if_true]
        rw [List.pairwise_cons]
        constructor
        · intro z hz
          rcases mem_insertByCreatedDesc.mp hz with rfl | hz
          · exact le_of_lt hc
          · exact h.1 z hz
        · exact ih h.2
      · simp only [insertByCreatedDesc, hc, if_false]
        rw [List.pairwise_cons]
        constructor
        · intro z hz
          rcases List.mem_cons.mp hz with rfl | hz
          · exact le_of_not_lt hc
          · exact le_trans (h.1 z hz) (le_of_not_lt hc)
        · exact List.pairwise_cons.mpr h

/-- The timeline sort orders its output by `created_at` descending. -/
theorem sortByCreatedDesc_pairwise (l : List Content) :
    (sortByCreatedDesc l).Pairwise (fun a b => b.createdAt ≤ a.createdAt) := by
  induction l with
  | nil => exact List.Pairwise.nil
  | cons x xs ih => exact pairwise_insertByCreatedDesc x _ ih

/-- C8 counterexample: with equal `created_at`, the merged timeline keeps
the fixed kind gather order (pages before characters), not an id-based
order.  In the first table the page has the larger id, in the second the
smaller, yet the page comes first both times — so no secondary key on id
(ascending or descending) describes the tie-break, refuting the claim's
"ties broken by a stable secondary key such as id". -/
theorem c8_tie_break_counterexample :
    timeline [⟨1, Kind.character, "C", "b", 1, 1, 100, false, none, none⟩,
        ⟨2, Kind.page, "P", "b", 1, 1, 100, false, none, none⟩] 1 0 50 =
      [⟨2, Kind.page, "P", "b", 1, 1, 100, false, none, none⟩,
        ⟨1, Kind.character, "C", "b", 1, 1, 100, false, none, none⟩] ∧
    timeline [⟨2, Kind.character, "C", "b", 1, 1, 100, false, none, none⟩,
        ⟨1, Kind.page, "P", "b", 1, 1, 100, false, none, none⟩] 1 0 50 =
      [⟨1, Kind.page, "P", "b", 1, 1, 100, false, none, none⟩,
        ⟨2, Kind.character, "C", "b", 1, 1, 100, false, none, none⟩] := by
  decide

/-- C8 amended: the timeline is sorted by `created_at` descending and
sliced by offset/limit (a page is the corresponding window of the full
prefix), with ties broken by the fixed kind gather order and the underlying
per-kind row order — not by an id key; the three-entity scenario with
strictly increasing creation times yields newest-first order. -/
theorem c8_timeline_amended (db : List Content) (worldId offset limit : Nat)
    (p c s : Content) :
    (timeline db worldId offset limit).Pairwise
      (fun a b => b.createdAt ≤ a.createdAt) ∧
    timeline db worldId offset limit =
      (timeline db worldId 0 (offset + limit)).drop offset ∧
    (p.kind = Kind.page → c.kind = Kind.character → s.kind = Kind.story →
      p.worldId = worldId → c.worldId = worldId → s.worldId = worldId →
      p.is_deleted = false → c.is_deleted = false → s.is_deleted = false →
      p.createdAt < c.createdAt → c.createdAt < s.createdAt →
      timeline [p, c, s] worldId 0 50 = [s, c, p]) := by
  refine ⟨?_, ?_, ?_⟩
  · have hsorted := sortByCreatedDesc_pairwise (kindOrder.flatMap (fun k =>
      db.filter (fun x => decide (x.kind = k ∧ x.worldId = worldId ∧
        x.is_deleted = false))))
    exact hsorted.sublist ((List.take_sublist _ _).trans (List.drop_sublist _ _))
  · show ((sortByCreatedDesc (kindOrder.flatMap (fun k =>
        db.filter (fun x => decide (x.kind = k ∧ x.worldId = worldId ∧
          x.is_deleted = false))))).drop offset).take limit =
      (((sortByCreatedDesc (kindOrder.flatMap (fun k =>
        db.filter (fun x => decide (x.kind = k ∧ x.worldId = worldId ∧
          x.is_deleted = false))))).drop 0).take (offset + limit)).drop offset
    rw [List.drop_zero, List.drop_take, Nat.add_sub_cancel_left]
  · intro hp hc hs hpw hcw hsw hpd hcd hsd hpc hcs
    have hps : p.createdAt < s.createdAt := lt_trans hpc hcs
    simp [timeline, kindOrder, sortByCreatedDesc, insertByCreatedDesc,
      hp, hc, hs, hpw, hcw, hsw, hpd, hcd, hsd, hpc, hcs, hps]

/-- Witness for C8 amended at the spec scenario: page (t=10), character
(t=15), story (t=20) come back newest first. -/
theorem c8_timeline_amended_witness :
    timeline [pageA, charC, storyB] 1 0 50 = [storyB, charC, pageA] :=
  (c8_timeline_amended [pageA, charC, storyB] 1 0 50 pageA charC storyB).2.2
    rfl rfl rfl rfl rfl rfl rfl rfl rfl (by decide) (by decide)

/-- C9 counterexample: a page whose only links are to/from a same-author
page and with no tags has serializer `collaboration_score = 2` (its two link
rows), while the claim's formula — distinct other-authored targets plus
distinct other-authored sources plus tag count — gives `0`. -/
theorem c9_score_counterexample :
    ¬ ((getCollaborationInfo [pageA, pageQ]
          [Edge.mk pageA.ref pageQ.ref, Edge.mk pageQ.ref pageA.ref]
          ⟨[], []⟩ pageA).collaboration_score =
        ((getLinkedContent [pageA, pageQ]
            [Edge.mk pageA.ref pageQ.ref, Edge.mk pageQ.ref pageA.ref]
            pageA).filter (fun x => decide (x.authorId ≠ pageA.authorId))).length +
        ((getContentLinkingToThis [pageA, pageQ]
            [Edge.mk pageA.ref pageQ.ref, Edge.mk pageQ.ref pageA.ref]
            pageA).filter (fun x => decide (x.authorId ≠ pageA.authorId))).length +
        (getTags ⟨[], []⟩ pageA).length) := by
  decide

/-- C9 amended: the serializer's per-entity `collaboration_score` counts
*all* resolved link targets and sources (regardless of author) plus the tag
count; `is_collaborative` (in both the serializer and the attribution
endpoint) holds exactly when some resolved linked or linking content has a
different author; the attribution endpoint's own `collaboration_score` is
the sum of the two cross-author reference counts with no tag term; and in
the two-author scenario (B's entity linked to A's), A's entity reports
`references_received = 1`, `cross_author_references_received = 1` and
`is_collaborative = true`. -/
theorem c9_collaboration_amended (db : List Content) (store : LinkStore)
    (st : TagStore) (obj p q : Content) :
    (getCollaborationInfo db store st obj).collaboration_score =
      (getLinkedContent db store obj).length +
      (getContentLinkingToThis db store obj).length + (getTags st obj).length ∧
    ((getCollaborationInfo db store st obj).is_collaborative = true ↔
      (∃ x ∈ getLinkedContent db store obj, x.authorId ≠ obj.authorId) ∨
      (∃ x ∈ getContentLinkingToThis db store obj, x.authorId ≠ obj.authorId)) ∧
    ((attributionMetrics db store obj).is_collaborative = true ↔
      (∃ x ∈ getLinkedContent db store obj, x.authorId ≠ obj.authorId) ∨
      (∃ x ∈ getContentLinkingToThis db store obj, x.authorId ≠ obj.authorId)) ∧
    (attributionMetrics db store obj).collaboration_score =
      ((getLinkedContent db store obj).filter
        (fun x => decide (x.authorId ≠ obj.authorId))).length +
      ((getContentLinkingToThis db store obj).filter
        (fun x => decide (x.authorId ≠ obj.authorId))).length ∧
    (q.worldId = p.worldId → p.ref ≠ q.ref → q.authorId ≠ p.authorId →
      findRef db q.ref = some q →
      ∃ S f, linkTo [] q p = Except.ok (S, f) ∧
        (attributionMetrics db S p).total_references_received = 1 ∧
        (attributionMetrics db S p).cross_author_references_received = 1 ∧
        (attributionMetrics db S p).is_collaborative = true) := by
  refine ⟨rfl, ?_, ?_, rfl, ?_⟩
  · simp [getCollaborationInfo, List.dedup_eq_nil, List.filter_eq_nil_iff]
  · simp [attributionMetrics, List.length_pos, List.filter_eq_nil_iff]
  · intro hw hne ha hres
    have hq : q.ref ≠ p.ref := Ne.symm hne
    have hlink : linkTo [] q p =
        Except.ok ([Edge.mk q.ref p.ref, Edge.mk p.ref q.ref],
          Edge.mk q.ref p.ref) := by
      simp [linkTo, addEdge, hw, hq, hne, Bind.bind, Except.bind]
    refine ⟨[Edge.mk q.ref p.ref, Edge.mk p.ref q.ref], Edge.mk q.ref p.ref,
      hlink, ?_, ?_, ?_⟩
    · simp [attributionMetrics, getContentLinkingToThis, hq, hres]
    · simp [attributionMetrics, getContentLinkingToThis, hq, hres, ha]
    · simp [attributionMetrics, getContentLinkingToThis, hq, hres, ha]

/-- Witness for C9 amended at the spec scenario: author 2's story links to
author 1's page; the page then reports one reference received, one
cross-author reference received, and is collaborative. -/
theorem c9_collaboration_amended_witness :
    ∃ S f, linkTo [] storyB pageA = Except.ok (S, f) ∧
      (attributionMetrics [pageA, storyB] S pageA).total_references_received = 1 ∧
      (attributionMetrics [pageA, storyB] S
        pageA).cross_author_references_received = 1 ∧
      (attributionMetrics [pageA, storyB] S pageA).is_collaborative = true :=
  (c9_collaboration_amended [pageA, storyB] [] ⟨[], []⟩ pageA pageA
    storyB).2.2.2.2 rfl (by decide) (by decide) (by decide)

/-- C10: the duplicate-title check of `ContentBase.clean` runs through the
default `SoftDeleteManager`, so it compares only against non-deleted rows of
the same kind and world (case-insensitively, against the stripped proposed
title): when every case-insensitive title match is soft-deleted the check
passes; a clean `create` guarantees no *live* same-kind same-world duplicate;
and an otherwise-valid entity whose title matches only soft-deleted rows is
created successfully. -/
theorem c10_title_uniqueness (db : List Content) (e : Content) :
    ((∀ c ∈ db, c.kind = e.kind → c.worldId = e.worldId →
        pyLower c.title = pyLower (pyStrip e.title) → c.id ≠ e.id →
        c.is_deleted = true) →
      titleConflicts db e = false) ∧
    (contentClean db e = none →
      ∀ c ∈ db, c.kind = e.kind → c.worldId = e.worldId →
        c.is_deleted = false → c.id ≠ e.id →
        pyLower c.title ≠ pyLower (pyStrip e.title)) ∧
    (pyStrip e.title ≠ "" → ¬ (pyStrip e.title).length < 3 →
      ¬ (pyStrip e.title).length > 300 → pyStrip e.content ≠ "" →
      ¬ (pyStrip e.content).length < 10 →
      (∀ c ∈ db, c.kind = e.kind → c.worldId = e.worldId →
        pyLower c.title = pyLower (pyStrip e.title) → c.id ≠ e.id →
        c.is_deleted = true) →
      createContent db e = Except.ok (db ++ [e])) := by
  have hconf : (∀ c ∈ db, c.kind = e.kind → c.worldId = e.worldId →
      pyLower c.title = pyLower (pyStrip e.title) → c.id ≠ e.id →
      c.is_deleted = true) → titleConflicts db e = false := by
    intro h
    simp only [titleConflicts, List.any_eq_false, decide_eq_true_eq]
    intro c hc hcontra
    obtain ⟨hk, hdel, hw, ht, hid⟩ := hcontra
    rw [h c hc hk hw ht hid] at hdel
    exact Bool.noConfusion hdel
  refine ⟨hconf, ?_, ?_⟩
  · intro hclean c hc hk hw hdel hid ht
    have htc : titleConflicts db e = true := by
      simp only [titleConflicts, List.any_eq_true, decide_eq_true_eq]
      exact ⟨c, hc, hk, hdel, hw, ht, hid⟩
    have hfalse : titleConflicts db e = false := by
      by_cases g1 : pyStrip e.title = ""
      · simp [contentClean, g1] at hclean
      · by_cases g2 : (pyStrip e.title).length < 3
        · simp [contentClean, g1, g2] at hclean
        · by_cases g3 : (pyStrip e.title).length > 300
          · simp [contentClean, g1, g2, g3] at hclean
          · by_cases g4 : pyStrip e.content = ""
            · simp [contentClean, g1, g2, g3, g4] at hclean
            · by_cases g5 : (pyStrip e.content).length < 10
              · simp [contentClean, g1, g2, g3, g4, g5] at hclean
              · by_cases g6 : titleConflicts db e = true
                · simp [contentClean, g1, g2, g3, g4, g5, g6] at hclean
                · exact Bool.eq_false_iff.mpr g6
    rw [htc] at hfalse
    exact Bool.noConfusion hfalse
  · intro h1 h2 h3 h4 h5 h6
    have htc := hconf h6
    simp [createContent, contentClean, h1, h2, h3, h4, h5, htc]

/-- Witness for C10: a page whose title matches — up to case — only a
soft-deleted page in the same world is created successfully. -/
theorem c10_title_uniqueness_witness :
    createContent
        [⟨1, Kind.page, "Foundation", "body text F!", 1, 1, 10, true,
          some 50, some 1⟩]
        ⟨2, Kind.page, "foundation", "more body text!", 1, 1, 60, false,
          none, none⟩ =
      Except.ok
        ([⟨1, Kind.page, "Foundation", "body text F!", 1, 1, 10, true,
          some 50, some 1⟩] ++
          [⟨2, Kind.page, "foundation", "more body text!", 1, 1, 60, false,
            none, none⟩]) :=
  (c10_title_uniqueness
    [⟨1, Kind.page, "Foundation", "body text F!", 1, 1, 10, true,
      some 50, some 1⟩]
    ⟨2, Kind.page, "foundation", "more body text!", 1, 1, 60, false,
      none, none⟩).2.2
    (by decide) (by decide) (by decide) (by decide) (by decide) (by decide)

/-- C7: soft-delete/restore round-trip.  `restore (soft_delete e user)`
clears exactly the soft-delete triad; neither transition touches any field
outside the triad, so on an entity whose triad was clear the round-trip is
the identity. -/
theorem c7_soft_delete_restore (e : Content) (user : Option Nat) (now : Nat) :
    restore (softDelete e user now) =
      { e with is_deleted := false, deleted_at := none, deleted_by := none } ∧
    nonTriad (softDelete e user now) = nonTriad e ∧
    nonTriad (restore e) = nonTriad e ∧
    (e.is_deleted = false → e.deleted_at = none → e.deleted_by = none →
      restore (softDelete e user now) = e) := by
  refine ⟨rfl, rfl, rfl, fun h1 h2 h3 => ?_⟩
  cases e
  simp_all [restore, softDelete]

/-- Witness for C7 at a concrete entity, user and timestamp. -/
theorem c7_soft_delete_restore_witness :
    restore (softDelete
        ⟨1, Kind.page, "Title", "some body text", 2, 3, 4, false, none, none⟩
        (some 7) 42)
      = ⟨1, Kind.page, "Title", "some body text", 2, 3, 4, false, none, none⟩ :=
  (c7_soft_delete_restore
    ⟨1, Kind.page, "Title", "some body text", 2, 3, 4, false, none, none⟩
    (some 7) 42).2.2.2 rfl rfl rfl

/-- C1 (code bug): `ImmutableModelMixin.save` rejects a pure non-triad
change with an `ImmutabilityViolationError` naming the kind and id, and
`delete` is always the soft-delete transition, never a physical removal —
but a proposed write that changes a non-triad field *together with* a triad
field is persisted, because the guard only tests whether some triad field
differs and never checks that the remaining fields are unchanged.  The
middle conjunct evaluates the code at that failing input. -/
theorem c1_immutability_guard :
    immutableSave true
        (some ⟨1, Kind.page, "Original", "body text!", 1, 1, 5, false, none, none⟩)
        ⟨1, Kind.page, "Changed", "body text!", 1, 1, 5, false, none, none⟩ false
      = Except.error ⟨Kind.page, 1⟩ ∧
    immutableSave true
        (some ⟨1, Kind.page, "Original", "body text!", 1, 1, 5, false, none, none⟩)
        ⟨1, Kind.page, "Changed", "body text!", 1, 1, 5, true, some 9, some 2⟩ false
      = Except.ok ⟨1, Kind.page, "Changed", "body text!", 1, 1, 5, true, some 9, some 2⟩ ∧
    ∀ (e : Content) (u : Option Nat) (now : Nat),
      immutableDelete e u now = softDelete e u now :=
  ⟨rfl, rfl, fun _ _ _ => rfl⟩

/-- C4: `link_to` rejects a cross-world pair with `WorldMismatch` from
either receiver, and a self-pair with `SelfLink`; on either error no edge
row has been inserted (the world check precedes both `get_or_create` calls,
and the self-loop rejection happens in `full_clean` before the insert), so
the erroring call returns no modified table. -/
theorem c4_link_rejections (store : LinkStore) (s t : Content) :
    (s.worldId ≠ t.worldId →
      linkTo store s t = Except.error LinkError.worldMismatch ∧
      linkTo store t s = Except.error LinkError.worldMismatch) ∧
    (Edge.mk s.ref s.ref ∉ store →
      linkTo store s s = Except.error LinkError.selfLink) := by
  constructor
  · intro h
    have h1 : t.worldId ≠ s.worldId := fun hh => h hh.symm
    constructor
    · simp [linkTo, h1]
    · simp [linkTo, h]
  · intro h
    simp [linkTo, addEdge, h, Bind.bind, Except.bind]

/-- Witness for C4: a cross-world pair and a self pair on an empty table. -/
theorem c4_link_rejections_witness :
    linkTo [] ⟨1, Kind.page, "A", "b", 1, 1, 0, false, none, none⟩
        ⟨2, Kind.story, "B", "b", 1, 2, 0, false, none, none⟩
      = Except.error LinkError.worldMismatch ∧
    linkTo [] ⟨1, Kind.page, "A", "b", 1, 1, 0, false, none, none⟩
        ⟨1, Kind.page, "A", "b", 1, 1, 0, false, none, none⟩
      = Except.error LinkError.selfLink :=
  ⟨((c4_link_rejections []
      ⟨1, Kind.page, "A", "b", 1, 1, 0, false, none, none⟩
      ⟨2, Kind.story, "B", "b", 1, 2, 0, false, none, none⟩).1
        (by decide)).1,
   (c4_link_rejections []
      ⟨1, Kind.page, "A", "b", 1, 1, 0, false, none, none⟩
      ⟨1, Kind.page, "A", "b", 1, 1, 0, false, none, none⟩).2
        (by simp)⟩

/-- `add_tag` with a non-blank normalized name succeeds and leaves both the
`Tag` row and the association row present, returning the association. -/
theorem addTag_ok (st : TagStore) (e : Content) (name : String)
    (h : normalizeTag name ≠ "") :
    ∃ st', addTag st e name =
        Except.ok (st', CTag.mk e.ref (Tag.mk (normalizeTag name) e.worldId)) ∧
      Tag.mk (normalizeTag name) e.worldId ∈ st'.tags ∧
      CTag.mk e.ref (Tag.mk (normalizeTag name) e.worldId) ∈ st'.contentTags := by
  by_cases h1 : Tag.mk (normalizeTag name) e.worldId ∈ st.tags
  · by_cases h2 :
        CTag.mk e.ref (Tag.mk (normalizeTag name) e.worldId) ∈ st.contentTags
    · exact ⟨st, by simp [addTag, h, h1, h2], h1, h2⟩
    · refine ⟨{ st with contentTags :=
          st.contentTags ++ [CTag.mk e.ref (Tag.mk (normalizeTag name) e.worldId)] },
        by simp [addTag, h, h1, h2], h1, by simp⟩
  · by_cases h2 :
        CTag.mk e.ref (Tag.mk (normalizeTag name) e.worldId) ∈ st.contentTags
    · refine ⟨{ st with tags :=
          st.tags ++ [Tag.mk (normalizeTag name) e.worldId] },
        by simp [addTag, h, h1, h2], by simp, h2⟩
    · refine ⟨⟨st.tags ++ [Tag.mk (normalizeTag name) e.worldId],
          st.contentTags ++ [CTag.mk e.ref (Tag.mk (normalizeTag name) e.worldId)]⟩,
        by simp [addTag, h, h1, h2], by simp, by simp⟩

/-- `add_tag` is a no-op returning the existing association when both the
tag and the association already exist. -/
theorem addTag_already (st : TagStore) (e : Content) (name : String)
    (h : normalizeTag name ≠ "")
    (h1 : Tag.mk (normalizeTag name) e.worldId ∈ st.tags)
    (h2 : CTag.mk e.ref (Tag.mk (normalizeTag name) e.worldId) ∈ st.contentTags) :
    addTag st e name =
      Except.ok (st, CTag.mk e.ref (Tag.mk (normalizeTag name) e.worldId)) := by
  simp [addTag, h, h1, h2]

/-- C5: `add_tag` is normalizing and idempotent.  A name with a non-blank
normalized form yields the association between the entity and the tag
`(normalized name, entity world)`; a second call with any name of the same
normalized form changes nothing and returns the same association. -/
theorem c5_add_tag_idempotent (st : TagStore) (e : Content) (name other : String)
    (h : normalizeTag name ≠ "")
    (hsame : normalizeTag other = normalizeTag name) :
    ∃ st' ct,
      addTag st e name = Except.ok (st', ct) ∧
      ct = CTag.mk e.ref (Tag.mk (normalizeTag name) e.worldId) ∧
      Tag.mk (normalizeTag name) e.worldId ∈ st'.tags ∧
      ct ∈ st'.contentTags ∧
      addTag st' e other = Except.ok (st', ct) := by
  obtain ⟨st', hok, htag, hct⟩ := addTag_ok st e name h
  refine ⟨st', _, hok, rfl, htag, hct, ?_⟩
  have hthis := addTag_already st' e other
    (by rw [hsame]; exact h) (by rw [hsame]; exact htag) (by rw [hsame]; exact hct)
  rw [hsame] at hthis
  exact hthis

/-- Witness for C5: tagging a page `"Fantasy"` then `"fantasy"` on an empty
tag store. -/
theorem c5_add_tag_idempotent_witness :
    normalizeTag "Fantasy" ≠ "" ∧
    normalizeTag "fantasy" = normalizeTag "Fantasy" ∧
    ∃ st' ct,
      addTag ⟨[], []⟩ ⟨1, Kind.page, "P", "b", 1, 1, 0, false, none, none⟩
          "Fantasy" = Except.ok (st', ct) ∧
      ct = CTag.mk ⟨Kind.page, 1⟩ ⟨normalizeTag "Fantasy", 1⟩ ∧
      Tag.mk (normalizeTag "Fantasy") 1 ∈ st'.tags ∧
      ct ∈ st'.contentTags ∧
      addTag st' ⟨1, Kind.page, "P", "b", 1, 1, 0, false, none, none⟩
          "fantasy" = Except.ok (st', ct) :=
  ⟨by decide, by decide,
   c5_add_tag_idempotent ⟨[], []⟩
     ⟨1, Kind.page, "P", "b", 1, 1, 0, false, none, none⟩
     "Fantasy" "fantasy" (by decide) (by decide)⟩

end Worldbuilding
